import Mathlib

/-!
Shallow embedding of the allergy-monitor scraper core
(daily_alert/scraper.py and daily_alert/email_builder.py).

Modelling conventions:
- HTML documents are modelled as a tree of nodes (tag + children, or a
  text leaf); BeautifulSoup's parent pointers are modelled by pairing each
  discovered h4 node with its chain of ancestors, nearest first.
- Python strings are Lean strings; str.lower / str.strip / the substring
  test (the Python in operator) are re-implemented character-wise so that
  all definitions reduce in the kernel.  (Python's str.lower and str.strip
  also handle non-ASCII case folding / Unicode whitespace; every string
  the scraper compares against is ASCII, so the difference is irrelevant
  here and noted where it occurs.)
- The wall clock is passed in explicitly: now_mmddyyyy stands for
  datetime.now().strftime of the date pattern, now_ts for the
  scrape-time pattern.
- A Python function that can raise is modelled with Option / Except.
-/

namespace AllergyMonitor

/-- Python str.lower, character-wise (ASCII case mapping). -/
def pyLower (s : String) : String := String.mk (s.data.map Char.toLower)

/-- Whitespace characters stripped by Python str.strip (ASCII subset). -/
def isSpaceChar (c : Char) : Bool :=
  c == ' ' || c == '\t' || c == '\n' || c == '\r' || c == '\x0b' || c == '\x0c'

/-- Python str.strip with no arguments: drop leading and trailing whitespace. -/
def pyStrip (s : String) : String :=
  String.mk (((s.data.dropWhile isSpaceChar).reverse.dropWhile isSpaceChar).reverse)

/-- Does the character list contain pat as a contiguous run? -/
def listContains (pat : List Char) : List Char → Bool
  | [] => pat.isEmpty
  | c :: rest => (pat.isPrefixOf (c :: rest)) || listContains pat rest

/-- Python substring test: pat in s. -/
def strContains (s pat : String) : Bool := listContains pat.data s.data

/-- A parsed HTML node: a text leaf or an element with a tag and children.
The BeautifulSoup root document object is itself such a node. -/
inductive Node where
  | text (s : String)
  | elem (tag : String) (children : List Node)

mutual

/-- All descendant text strings of a node, in document order
(BeautifulSoup's strings stream). -/
def nodeStrings : Node → List String
  | .text s => [s]
  | .elem _ cs => nodesStrings cs

/-- All descendant text strings of a list of sibling nodes. -/
def nodesStrings : List Node → List String
  | [] => []
  | n :: ns => nodeStrings n ++ nodesStrings ns

end

/-- soup.get_text(): every descendant string concatenated, no separator,
no stripping. -/
def get_text (n : Node) : String := String.join (nodeStrings n)

/-- The descendant strings after strip=True handling: each string is
stripped and strings that become empty are dropped. -/
def strippedStrings (n : Node) : List String :=
  (nodeStrings n).filterMap (fun s =>
    let t := pyStrip s
    if t = "" then none else some t)

/-- node.get_text(strip=True): stripped pieces joined with no separator. -/
def get_text_strip (n : Node) : String := String.join (strippedStrings n)

/-- node.get_text(separator=" ", strip=True): stripped pieces joined with
a single space. -/
def get_text_sep_strip (n : Node) : String :=
  String.intercalate " " (strippedStrings n)

mutual

/-- Collect every h4 element of a subtree in document order (pre-order),
paired with its ancestor chain, nearest ancestor first.  anc is the
ancestor chain of the node being visited. -/
def find_h4s_node (anc : List Node) : Node → List (Node × List Node)
  | .text _ => []
  | .elem tag cs =>
      (if tag = "h4" then [(Node.elem tag cs, anc)] else [])
        ++ find_h4s_list (Node.elem tag cs :: anc) cs

/-- Collect the h4 elements of a list of sibling subtrees. -/
def find_h4s_list (anc : List Node) : List Node → List (Node × List Node)
  | [] => []
  | n :: ns => find_h4s_node anc n ++ find_h4s_list anc ns

end

/-- soup.find_all("h4") with each hit paired with its ancestor chain.
BeautifulSoup searches the descendants of the root document object, and
the root itself is the parent of the top-level elements, which the empty
starting chain together with the chain extension in find_h4s_node
reproduces (an h4 directly below the root has exactly one ancestor). -/
def find_all_h4 (soup : Node) : List (Node × List Node) :=
  find_h4s_node [] soup

/-- The source attribution constant of PollenReading. -/
def SOURCE_STR : String := "ASAP Illinois — asapillinois.com/pollen-count/"

/-- PollenReading dataclass from scraper.py. -/
structure PollenReading where
  category : String
  level : String
  date : String
  source : String := SOURCE_STR
deriving DecidableEq

/-- DailyPollenReport dataclass from scraper.py. -/
structure DailyPollenReport where
  date : String
  readings : List PollenReading
  scrape_time : String
deriving DecidableEq

/-- severity_rank dictionary lookup with default -1
(severity_rank.get(level, -1) in DailyPollenReport.worst_level). -/
def severity_rank (s : String) : Int :=
  if s = "Absent" then 0
  else if s = "Low" then 1
  else if s = "Moderate" then 2
  else if s = "High" then 3
  else if s = "Very High" then 4
  else -1

/-- Python max(x :: xs, key): scan left to right, replace the current
best only on a strict key increase, so the first maximum is kept. -/
def pymax (key : PollenReading → Int) (x : PollenReading) (xs : List PollenReading) :
    PollenReading :=
  xs.foldl (fun best y => if key best < key y then y else best) x

/-- DailyPollenReport.worst_level on the readings list; none models the
ValueError Python's max raises on an empty list. -/
def worst_level (readings : List PollenReading) : Option String :=
  match readings with
  | [] => none
  | x :: xs => some ((pymax (fun r => severity_rank r.level) x xs).level)

/-- EXPECTED_CATEGORIES from scraper.py, in source order. -/
def EXPECTED_CATEGORIES : List String :=
  ["Tree Pollen", "Grass Pollen", "Ragweed Pollen", "Total Weed Pollen", "Mold"]

/-- valid_levels from _find_level_near_element, in source order. -/
def valid_levels : List String :=
  ["Very High", "High", "Moderate", "Low", "Absent"]

/-- Embeds _find_level_near_element: ancestors is the h4's ancestor chain,
nearest first.  The element's parent is the chain's head, the grandparent
the second entry; with a grandparent present, its full descendant text
(separator " ", strip=True) is scanned for the valid levels in order and
the first level occurring as a substring is returned; otherwise None. -/
def find_level_near_element (ancestors : List Node) : Option String :=
  match ancestors with
  | _ :: grandparent :: _ =>
      valid_levels.find? (fun level =>
        strContains (get_text_sep_strip grandparent) level)
  | _ => none

/-- The category-matching two-pass policy from the body of
_extract_readings: first loop, exact case-insensitive equality against
EXPECTED_CATEGORIES in order; only if that finds nothing, second loop,
case-insensitive substring containment, again in order. -/
def match_category (category_text : String) : Option String :=
  match EXPECTED_CATEGORIES.find? (fun expected =>
      pyLower expected == pyLower category_text) with
  | some expected => some expected
  | none =>
      EXPECTED_CATEGORIES.find? (fun expected =>
        strContains (pyLower category_text) (pyLower expected))

/-- The for-loop of _extract_readings over the discovered h4 nodes.
seen is the seen_categories set (a list used only through membership).
Order of operations as in the source: match the category, skip when
already seen, mark as seen, and only then resolve the level; a failed
level resolution appends nothing but the category stays marked. -/
def extract_loop (report_date : String) (seen : List String) :
    List (Node × List Node) → List PollenReading
  | [] => []
  | (h4, anc) :: rest =>
      match match_category (get_text_strip h4) with
      | none => extract_loop report_date seen rest
      | some cat =>
          if cat ∈ seen then
            extract_loop report_date seen rest
          else
            match find_level_near_element anc with
            | some level =>
                ⟨cat, level, report_date, SOURCE_STR⟩ ::
                  extract_loop report_date (cat :: seen) rest
            | none => extract_loop report_date (cat :: seen) rest

/-- Embeds _extract_readings: run the loop over all h4 nodes of the document. -/
def extract_readings (soup : Node) (report_date : String) : List PollenReading :=
  extract_loop report_date [] (find_all_h4 soup)

/-- One 10-character window of the regex \d{2}/\d{2}/\d{4} anchored at the
head of the character list.  Char.isDigit models \d (Python's re also
accepts non-ASCII Unicode digits; no claim depends on those). -/
def match_date_at : List Char → Option String
  | a :: b :: c :: d :: e :: f :: g :: h :: i :: j :: _ =>
      if a.isDigit && b.isDigit && c == '/' && d.isDigit && e.isDigit
          && f == '/' && g.isDigit && h.isDigit && i.isDigit && j.isDigit then
        some (String.mk [a, b, c, d, e, f, g, h, i, j])
      else none
  | _ => none

/-- re.search of the date pattern: try every start position left to
right and return the leftmost match. -/
def search_date : List Char → Option String
  | [] => none
  | c :: rest =>
      match match_date_at (c :: rest) with
      | some d => some d
      | none => search_date rest

/-- Embeds _extract_date: first date-pattern match in soup.get_text(); on no
match, the current system date already formatted as MM/DD/YYYY, which is
passed in as now_mmddyyyy. -/
def extract_date (soup : Node) (now_mmddyyyy : String) : String :=
  match search_date (get_text soup).data with
  | some d => d
  | none => now_mmddyyyy

/-- scrape_pollen_data after a successful HTTP fetch: soup is the parsed
document, now_mmddyyyy and now_ts the two clock formats.  Except.error
models the ValueError raised when the readings list is empty
(if not readings in the source). -/
def scrape_pollen_data (soup : Node) (now_mmddyyyy now_ts : String) :
    Except String DailyPollenReport :=
  let report_date := extract_date soup now_mmddyyyy
  let readings := extract_readings soup report_date
  if readings = [] then
    Except.error
      "No pollen readings found on the page. The site structure may have changed."
  else
    Except.ok ⟨report_date, readings, now_ts⟩

/-- The per-severity style record of email_builder.SEVERITY_COLORS. -/
structure SeverityStyle where
  bg : String
  text : String
  icon : String
deriving DecidableEq

/-- SEVERITY_COLORS from email_builder.py as an association list. -/
def SEVERITY_COLORS : List (String × SeverityStyle) :=
  [("Absent", ⟨"#e8f5e9", "#388e3c", "✅"⟩),
   ("Low", ⟨"#e8f5e9", "#388e3c", "🟢"⟩),
   ("Moderate", ⟨"#fff8e1", "#f9a825", "🟡"⟩),
   ("High", ⟨"#fff3e0", "#e65100", "🟠"⟩),
   ("Very High", ⟨"#ffebee", "#c62828", "🔴"⟩)]

/-- SEVERITY_COLORS.get(worst, an empty dict).get("icon", "") from
build_email_subject. -/
def icon_for (worst : String) : String :=
  match SEVERITY_COLORS.find? (fun p => p.fst == worst) with
  | some p => p.snd.icon
  | none => ""

/-- build_email_subject; none models the ValueError that
report.worst_level() raises on an empty readings list. -/
def build_email_subject (report : DailyPollenReport) : Option String :=
  (worst_level report.readings).map (fun worst =>
    icon_for worst ++ " Chicago Allergy Alert (" ++ report.date ++ "): " ++ worst)

/-! Spec-side definitions, written from the specification's wording, to be
compared with the definitions above that embed the source. -/

/-- Spec 4.5 wording: the first reading attaining the maximum severity
rank (stable argmax), as a direct search. -/
def worst_level_spec (l : List PollenReading) : Option String :=
  (l.find? (fun r => l.all (fun s =>
    decide (severity_rank s.level ≤ severity_rank r.level)))).map PollenReading.level

/-- Pipeline view of reading extraction, step 1: each discovered h4 node
that matches a category, paired with its ancestor chain, in document
order. -/
def matched_pairs (h4s : List (Node × List Node)) : List (String × List Node) :=
  h4s.filterMap (fun p =>
    (match_category (get_text_strip p.fst)).map (fun c => (c, p.snd)))

/-- Pipeline view, step 2: keep only the first pair for each category
(later duplicates for an already claimed category are dropped). -/
def dedup_first (seen : List String) :
    List (String × List Node) → List (String × List Node)
  | [] => []
  | (c, a) :: rest =>
      if c ∈ seen then dedup_first seen rest
      else (c, a) :: dedup_first (c :: seen) rest

/-- Pipeline view, step 3: resolve each claimed pair's severity from its
ancestor chain and drop the pairs whose resolution fails. -/
def resolve_levels (report_date : String) (l : List (String × List Node)) :
    List PollenReading :=
  l.filterMap (fun p =>
    (find_level_near_element p.snd).map (fun level =>
      ⟨p.fst, level, report_date, SOURCE_STR⟩))

/-- Spec 4.1 wording: a 10-character string of shape two digits, slash,
two digits, slash, four digits. -/
def is_date_pattern (s : String) : Bool :=
  match s.data with
  | [a, b, c, d, e, f, g, h, i, j] =>
      a.isDigit && b.isDigit && c == '/' && d.isDigit && e.isDigit
        && f == '/' && g.isDigit && h.isDigit && i.isDigit && j.isDigit
  | _ => false

/-! Concrete fixtures used by the witnesses. -/

/-- One category block of the page structure: a grandparent div holding a
parent div with the h4 label and a sibling div with the severity. -/
def cat_block (name lvl : String) : Node :=
  .elem "div" [.elem "div" [.elem "h4" [.text name]],
               .elem "div" [.elem "span" [.text lvl]]]

/-- A document shaped like the ASAP Illinois page (the layout of the
repository's test fixture SAMPLE_HTML). -/
def sample_doc : Node :=
  .elem "[document]" [.elem "html" [.elem "body" [
    .elem "div" [.text "02/15/2026"],
    .elem "div" [
      cat_block "Tree Pollen" "High",
      cat_block "Grass Pollen" "Low",
      cat_block "Ragweed Pollen" "Absent",
      cat_block "Total Weed Pollen" "Moderate",
      cat_block "Mold" "High"]]]]

/-- A document whose first Mold node sits in a grandparent with no
severity token, followed by a well-formed Mold block. -/
def dup_fail_doc : Node :=
  .elem "[document]" [
    .elem "div" [.elem "div" [.elem "h4" [.text "Mold"]]],
    cat_block "Mold" "High"]

/-- A reading with the given severity, for concrete worst-level checks. -/
def mkReading (level : String) : PollenReading :=
  ⟨"Tree Pollen", level, "02/15/2026", SOURCE_STR⟩

/-! Helper lemmas. -/

/-- A run starting at the head stays a run after dropping a left part. -/
lemma isPrefixOf_contains_right (a : List Char) :
    ∀ (b l : List Char), (a ++ b).isPrefixOf l = true → listContains b l = true := by
  induction a with
  | nil =>
      intro b l h
      cases l with
      | nil =>
          cases b with
          | nil => rfl
          | cons x xs => simp [List.isPrefixOf] at h
      | cons c r =>
          simp only [List.nil_append] at h
          simp [listContains, h]
  | cons x xs ih =>
      intro b l h
      cases l with
      | nil => simp [List.isPrefixOf] at h
      | cons c r =>
          simp only [List.cons_append, List.isPrefixOf, Bool.and_eq_true] at h
          have := ih b r h.2
          simp [listContains, this]

/-- Containing a concatenation implies containing its right part. -/
lemma listContains_append_right (a b : List Char) :
    ∀ l : List Char, listContains (a ++ b) l = true → listContains b l = true := by
  intro l
  induction l with
  | nil =>
      intro h
      simp only [listContains, List.isEmpty_iff, List.append_eq_nil] at h
      simp [listContains, h.2, List.isEmpty_iff]
  | cons c r ih =>
      intro h
      rcases Bool.or_eq_true_iff.1 h with h1 | h2
      · exact isPrefixOf_contains_right a b (c :: r) h1
      · have := ih h2
        simp only [listContains, Bool.or_eq_true]
        exact Or.inr this

/-- A list is a run of itself followed by anything. -/
lemma isPrefixOf_append_self (l t : List Char) : l.isPrefixOf (l ++ t) = true := by
  induction l with
  | nil => simp [List.isPrefixOf]
  | cons c cs ih => simp [List.isPrefixOf, ih]

/-- A successful 10-character window match yields the date pattern shape
and reproduces the window verbatim. -/
lemma match_date_at_shape (l : List Char) (d : String)
    (h : match_date_at l = some d) :
    is_date_pattern d = true ∧ d.data.isPrefixOf l = true := by
  match l with
  | [] => simp [match_date_at] at h
  | [a] => simp [match_date_at] at h
  | [a, b] => simp [match_date_at] at h
  | [a, b, c] => simp [match_date_at] at h
  | [a, b, c, e] => simp [match_date_at] at h
  | [a, b, c, e, f] => simp [match_date_at] at h
  | [a, b, c, e, f, g] => simp [match_date_at] at h
  | [a, b, c, e, f, g, i] => simp [match_date_at] at h
  | [a, b, c, e, f, g, i, j] => simp [match_date_at] at h
  | [a, b, c, e, f, g, i, j, k] => simp [match_date_at] at h
  | a :: b :: c :: e :: f :: g :: i :: j :: k :: m :: t =>
      rw [match_date_at] at h
      split_ifs at h with hc
      · have hd : d = String.mk [a, b, c, e, f, g, i, j, k, m] :=
          (Option.some_inj.1 h).symm
        subst hd
        constructor
        · simpa [is_date_pattern] using hc
        · exact isPrefixOf_append_self [a, b, c, e, f, g, i, j, k, m] t

/-- The search returns the leftmost window at which the pattern matches. -/
lemma search_date_first (s : List Char) (d : String)
    (h : search_date s = some d) :
    ∃ i, match_date_at (s.drop i) = some d ∧
      ∀ j < i, match_date_at (s.drop j) = none := by
  induction s with
  | nil => simp [search_date] at h
  | cons c rest ih =>
      rw [search_date] at h
      cases hm : match_date_at (c :: rest) with
      | some d0 =>
          rw [hm] at h
          refine ⟨0, ?_, ?_⟩
          · simpa [hm] using h
          · intro j hj; omega
      | none =>
          rw [hm] at h
          obtain ⟨i, h1, h2⟩ := ih h
          refine ⟨i + 1, by simpa using h1, ?_⟩
          intro j hj
          cases j with
          | zero => simpa using hm
          | succ k => simpa using h2 k (by omega)

/-- The severity rank is never below -1. -/
lemma severity_rank_ge : ∀ s : String, -1 ≤ severity_rank s := by
  intro s
  rw [severity_rank]
  split_ifs <;> omega

/-- Unfolding one step of the Python max scan. -/
lemma pymax_cons (key : PollenReading → Int) (x y : PollenReading)
    (ys : List PollenReading) :
    pymax key x (y :: ys) = pymax key (if key x < key y then y else x) ys := rfl

/-- The Python max with a key returns the first element attaining the
maximum key: the list splits around the result, everything strictly
earlier has a strictly smaller key, and nothing has a larger key. -/
lemma pymax_decomp (key : PollenReading → Int) :
    ∀ (xs : List PollenReading) (x : PollenReading),
      ∃ l1 l2, x :: xs = l1 ++ pymax key x xs :: l2 ∧
        (∀ y ∈ l1, key y < key (pymax key x xs)) ∧
        (∀ y ∈ x :: xs, key y ≤ key (pymax key x xs)) := by
  intro xs
  induction xs with
  | nil =>
      intro x
      exact ⟨[], [], rfl, by simp, by simp [pymax]⟩
  | cons y ys ih =>
      intro x
      rw [pymax_cons]
      by_cases hxy : key x < key y
      · rw [if_pos hxy]
        obtain ⟨l1, l2, heq, hstrict, hle⟩ := ih y
        refine ⟨x :: l1, l2, ?_, ?_, ?_⟩
        · rw [List.cons_append, ← heq]
        · intro z hz
          rcases List.mem_cons.1 hz with rfl | hz'
          · exact lt_of_lt_of_le hxy (hle y (List.mem_cons_self y ys))
          · exact hstrict z hz'
        · intro z hz
          rcases List.mem_cons.1 hz with rfl | hz'
          · exact le_of_lt (lt_of_lt_of_le hxy (hle y (List.mem_cons_self y ys)))
          · exact hle z hz'
      · rw [if_neg hxy]
        obtain ⟨l1, l2, heq, hstrict, hle⟩ := ih x
        cases l1 with
        | nil =>
            simp only [List.nil_append] at heq
            have hr : pymax key x ys = x := (List.cons.injEq _ _ _ _ ▸ heq).1.symm
            refine ⟨[], y :: ys, ?_, by simp, ?_⟩
            · rw [List.nil_append, hr]
            · intro z hz
              rcases List.mem_cons.1 hz with rfl | hz'
              · rw [hr]
              · rcases List.mem_cons.1 hz' with rfl | hz''
                · rw [hr]; exact le_of_not_lt hxy
                · exact hle z (List.mem_cons_of_mem x hz'')
        | cons w l1' =>
            rw [List.cons_append] at heq
            injection heq with h1 h2
            subst h1
            refine ⟨x :: y :: l1', l2, ?_, ?_, ?_⟩
            · rw [List.cons_append, List.cons_append, ← h2]
            · intro z hz
              rcases List.mem_cons.1 hz with rfl | hz'
              · exact hstrict z (List.mem_cons_self z l1')
              · rcases List.mem_cons.1 hz' with rfl | hz''
                · exact lt_of_le_of_lt (le_of_not_lt hxy)
                    (hstrict x (List.mem_cons_self x l1'))
                · exact hstrict z (List.mem_cons_of_mem x hz'')
            · intro z hz
              rcases List.mem_cons.1 hz with rfl | hz'
              · exact le_of_lt (hstrict z (List.mem_cons_self z l1'))
              · rcases List.mem_cons.1 hz' with rfl | hz''
                · exact le_trans (le_of_not_lt hxy)
                    (le_of_lt (hstrict x (List.mem_cons_self x l1')))
                · exact hle z (List.mem_cons_of_mem x (h2 ▸ hz''))

/-- worst_level agrees with the stable-argmax search on non-empty lists. -/
lemma worst_level_eq_spec (l : List PollenReading) (h : l ≠ []) :
    worst_level l = worst_level_spec l := by
  match l, h with
  | x :: xs, _ =>
    obtain ⟨l1, l2, heq, hstrict, hle⟩ :=
      pymax_decomp (fun r => severity_rank r.level) xs x
    have hmemr : pymax (fun r => severity_rank r.level) x xs ∈
        l1 ++ pymax (fun r => severity_rank r.level) x xs :: l2 :=
      List.mem_append_right l1 (List.mem_cons_self _ l2)
    have hfind : (x :: xs).find? (fun r => (x :: xs).all (fun s =>
        decide (severity_rank s.level ≤ severity_rank r.level))) =
        some (pymax (fun r => severity_rank r.level) x xs) := by
      rw [heq, List.find?_append]
      have h1 : l1.find? (fun r => (l1 ++ pymax (fun r => severity_rank r.level) x xs :: l2).all
          (fun s => decide (severity_rank s.level ≤ severity_rank r.level))) = none := by
        refine List.find?_eq_none.mpr ?_
        intro y hy hall
        have hler := List.all_eq_true.1 hall _ hmemr
        have h2 := hstrict y hy
        simp only [decide_eq_true_eq] at hler
        omega
      rw [h1]
      have h2 : ((l1 ++ pymax (fun r => severity_rank r.level) x xs :: l2).all
          (fun s => decide (severity_rank s.level ≤
            severity_rank (pymax (fun r => severity_rank r.level) x xs).level))) = true := by
        refine List.all_eq_true.mpr ?_
        intro s hs
        have hs' : s ∈ x :: xs := by rw [heq]; exact hs
        simpa using hle s hs'
      simp only [Option.none_or]
      exact List.find?_cons_of_pos l2 h2
    rw [worst_level_spec, hfind]
    rfl

/-- worst_level never fails on a non-empty list. -/
lemma worst_level_isSome (l : List PollenReading) (h : l ≠ []) :
    (worst_level l).isSome = true := by
  match l, h with
  | x :: xs, _ => rfl

/-- A reading produced by the loop never carries a category that was
already marked seen when the loop started. -/
lemma extract_loop_category_notin_seen :
    ∀ (l : List (Node × List Node)) (date : String) (seen : List String)
      (r : PollenReading), r ∈ extract_loop date seen l → r.category ∉ seen := by
  intro l
  induction l with
  | nil =>
      intro date seen r hr
      simp [extract_loop] at hr
  | cons p rest ih =>
      intro date seen r hr
      obtain ⟨h4, anc⟩ := p
      cases hm : match_category (get_text_strip h4) with
      | none =>
          rw [extract_loop] at hr
          simp only [hm] at hr
          exact ih date seen r hr
      | some cat =>
          rw [extract_loop] at hr
          simp only [hm] at hr
          by_cases hs : cat ∈ seen
          · rw [if_pos hs] at hr
            exact ih date seen r hr
          · rw [if_neg hs] at hr
            cases hl : find_level_near_element anc with
            | some lvl =>
                simp only [hl] at hr
                rcases List.mem_cons.1 hr with rfl | hr'
                · simpa using hs
                · have := ih date (cat :: seen) r hr'
                  exact fun hmem => this (List.mem_cons_of_mem _ hmem)
            | none =>
                simp only [hl] at hr
                have := ih date (cat :: seen) r hr
                exact fun hmem => this (List.mem_cons_of_mem _ hmem)

/-- The single-pass loop computes the match / dedup-first / resolve
pipeline. -/
lemma extract_loop_eq_pipeline :
    ∀ (l : List (Node × List Node)) (date : String) (seen : List String),
      extract_loop date seen l =
        resolve_levels date (dedup_first seen (matched_pairs l)) := by
  intro l
  induction l with
  | nil => intro date seen; rfl
  | cons p rest ih =>
      intro date seen
      obtain ⟨h4, anc⟩ := p
      cases hm : match_category (get_text_strip h4) with
      | none =>
          rw [extract_loop]
          simp only [hm, matched_pairs, List.filterMap_cons]
          exact ih date seen
      | some cat =>
          by_cases hs : cat ∈ seen
          · rw [extract_loop]
            simp only [hm, if_pos hs, matched_pairs, List.filterMap_cons,
              Option.map_some', dedup_first, if_pos hs]
            exact ih date seen
          · cases hl : find_level_near_element anc with
            | some lvl =>
                rw [extract_loop]
                simp only [hm, if_neg hs, hl, matched_pairs, List.filterMap_cons,
                  Option.map_some', dedup_first, if_neg hs, resolve_levels,
                  List.filterMap_cons]
                rw [ih date (cat :: seen)]
                rfl
            | none =>
                rw [extract_loop]
                simp only [hm, if_neg hs, hl, matched_pairs, List.filterMap_cons,
                  Option.map_some', dedup_first, if_neg hs, resolve_levels,
                  List.filterMap_cons]
                rw [ih date (cat :: seen)]
                rfl

/-- The deduplicated pairs carry pairwise distinct categories, none of
them already seen. -/
lemma dedup_first_keys :
    ∀ (l : List (String × List Node)) (seen : List String),
      ((dedup_first seen l).map Prod.fst).Nodup ∧
      ∀ c ∈ (dedup_first seen l).map Prod.fst, c ∉ seen := by
  intro l
  induction l with
  | nil =>
      intro seen
      exact ⟨by simp [dedup_first], by simp [dedup_first]⟩
  | cons p rest ih =>
      intro seen
      obtain ⟨c, a⟩ := p
      by_cases hs : c ∈ seen
      · simp only [dedup_first, if_pos hs]
        exact ih seen
      · simp only [dedup_first, if_neg hs, List.map_cons]
        obtain ⟨hnd, hni⟩ := ih (c :: seen)
        constructor
        · refine List.nodup_cons.2 ⟨?_, hnd⟩
          intro hmem
          exact hni c hmem (List.mem_cons_self c seen)
        · intro x hx
          rcases List.mem_cons.1 hx with rfl | hx'
          · exact hs
          · exact fun hmem => hni x hx' (List.mem_cons_of_mem c hmem)

/-- A pair kept by dedup-first is exactly the first pair of the input
carrying its category, and its category was not previously seen. -/
lemma mem_dedup_first :
    ∀ (l : List (String × List Node)) (seen : List String) (c : String)
      (a : List Node), (c, a) ∈ dedup_first seen l →
        c ∉ seen ∧ l.find? (fun q => q.fst == c) = some (c, a) := by
  intro l
  induction l with
  | nil =>
      intro seen c a h
      simp [dedup_first] at h
  | cons p rest ih =>
      intro seen c a h
      obtain ⟨c', a'⟩ := p
      by_cases hs : c' ∈ seen
      · rw [dedup_first, if_pos hs] at h
        obtain ⟨hni, hfind⟩ := ih seen c a h
        have hne : (c' == c) = false := by
          refine beq_eq_false_iff_ne.2 ?_
          intro hcc
          exact hni (hcc ▸ hs)
        refine ⟨hni, ?_⟩
        simp only [List.find?_cons, hne]
        exact hfind
      · rw [dedup_first, if_neg hs] at h
        rcases List.mem_cons.1 h with heq | h'
        · obtain ⟨rfl, rfl⟩ : c = c' ∧ a = a' := by
            simpa [Prod.ext_iff] using heq
          refine ⟨hs, ?_⟩
          simp [List.find?_cons]
        · obtain ⟨hni, hfind⟩ := ih (c' :: seen) c a h'
          have hnec : c ≠ c' := fun hcc => hni (hcc ▸ List.mem_cons_self c' seen)
          have hne : (c' == c) = false := beq_eq_false_iff_ne.2 (Ne.symm hnec)
          refine ⟨fun hmem => hni (List.mem_cons_of_mem c' hmem), ?_⟩
          simp only [List.find?_cons, hne]
          exact hfind

/-- The categories of the resolved readings are a sublist of the
categories of the pairs handed to resolution. -/
lemma resolve_levels_sublist :
    ∀ (l : List (String × List Node)) (date : String),
      List.Sublist ((resolve_levels date l).map PollenReading.category)
        (l.map Prod.fst) := by
  intro l
  induction l with
  | nil => intro date; simp [resolve_levels]
  | cons p rest ih =>
      intro date
      obtain ⟨c, a⟩ := p
      cases hl : find_level_near_element a with
      | some lvl =>
          simp only [resolve_levels, List.filterMap_cons, hl, Option.map_some',
            List.map_cons]
          exact (ih date).cons₂ c
      | none =>
          simp only [resolve_levels, List.filterMap_cons, hl, Option.map_none',
            List.map_cons]
          exact (ih date).cons c

/-- Every resolved reading comes from a pair of the input whose ancestor
chain resolves to the reading's level. -/
lemma mem_resolve_levels :
    ∀ (l : List (String × List Node)) (date : String) (r : PollenReading),
      r ∈ resolve_levels date l →
        ∃ a, (r.category, a) ∈ l ∧ find_level_near_element a = some r.level := by
  intro l date r hr
  obtain ⟨⟨c, a⟩, hmem, heq⟩ := List.mem_filterMap.1 hr
  cases hl : find_level_near_element a with
  | none =>
      rw [hl] at heq
      simp at heq
  | some lvl =>
      rw [hl] at heq
      simp only [Option.map_some', Option.some_inj] at heq
      subst heq
      exact ⟨a, hmem, hl⟩

/-- Readings for categories other than cat are insensitive to any
difference between the seen sets that is confined to cat. -/
lemma extract_loop_filter_congr :
    ∀ (l : List (Node × List Node)) (date cat : String)
      (seen1 seen2 : List String),
      (∀ x, x ≠ cat → (x ∈ seen1 ↔ x ∈ seen2)) →
      (extract_loop date seen1 l).filter (fun r => r.category != cat) =
        (extract_loop date seen2 l).filter (fun r => r.category != cat) := by
  intro l
  induction l with
  | nil => intro date cat seen1 seen2 hinv; rfl
  | cons p rest ih =>
      intro date cat seen1 seen2 hinv
      obtain ⟨h4, anc⟩ := p
      cases hm : match_category (get_text_strip h4) with
      | none =>
          rw [extract_loop, extract_loop]
          simp only [hm]
          exact ih date cat seen1 seen2 hinv
      | some c =>
          by_cases hc : c = cat
          · subst hc
            have reduce : ∀ seen : List String, ∃ seen',
                ((extract_loop date seen ((h4, anc) :: rest)).filter
                    (fun r => r.category != c) =
                  (extract_loop date seen' rest).filter
                    (fun r => r.category != c)) ∧
                ∀ x, x ≠ c → (x ∈ seen' ↔ x ∈ seen) := by
              intro seen
              by_cases hs : c ∈ seen
              · refine ⟨seen, ?_, fun x _ => Iff.rfl⟩
                rw [extract_loop]
                simp only [hm, if_pos hs]
              · refine ⟨c :: seen, ?_, ?_⟩
                · cases hl : find_level_near_element anc with
                  | some lvl =>
                      rw [extract_loop]
                      simp only [hm, if_neg hs, hl, List.filter_cons]
                      have hdrop : ((⟨c, lvl, date, SOURCE_STR⟩ :
                          PollenReading).category != c) = false := by simp
                      simp [hdrop]
                  | none =>
                      rw [extract_loop]
                      simp only [hm, if_neg hs, hl]
                · intro x hx
                  simp [List.mem_cons, hx]
            obtain ⟨s1, e1, i1⟩ := reduce seen1
            obtain ⟨s2, e2, i2⟩ := reduce seen2
            rw [e1, e2]
            refine ih date c s1 s2 ?_
            intro x hx
            exact (i1 x hx).trans ((hinv x hx).trans (i2 x hx).symm)
          · have hmem_iff := hinv c hc
            have hinv' : ∀ x, x ≠ cat → (x ∈ c :: seen1 ↔ x ∈ c :: seen2) := by
              intro x hx
              simp only [List.mem_cons]
              exact or_congr Iff.rfl (hinv x hx)
            by_cases hs : c ∈ seen1
            · have hs2 : c ∈ seen2 := hmem_iff.1 hs
              rw [extract_loop, extract_loop]
              simp only [hm, if_pos hs, if_pos hs2]
              exact ih date cat seen1 seen2 hinv
            · have hs2 : c ∉ seen2 := fun h => hs (hmem_iff.2 h)
              cases hl : find_level_near_element anc with
              | some lvl =>
                  rw [extract_loop, extract_loop]
                  simp only [hm, if_neg hs, if_neg hs2, hl, List.filter_cons]
                  have hkeep : ((⟨c, lvl, date, SOURCE_STR⟩ :
                      PollenReading).category != cat) = true := by simpa using hc
                  simp only [hkeep, if_true]
                  exact congrArg (List.cons _) (ih date cat _ _ hinv')
              | none =>
                  rw [extract_loop, extract_loop]
                  simp only [hm, if_neg hs, if_neg hs2, hl]
                  exact ih date cat _ _ hinv'

/-- A document whose text holds a pattern-shaped but calendar-invalid
date. -/
def date_doc : Node := Node.elem "div" [Node.text "on 13/40/9999 x"]

/-- A concrete parent div holding an h4. -/
def parent0 : Node := Node.elem "div" [Node.elem "h4" [Node.text "Tree Pollen"]]

/-- A concrete grandparent whose text contains both High and Very High. -/
def gp_very_high : Node :=
  Node.elem "div" [parent0, Node.elem "div" [Node.text "Very High"]]

/-- C1: for every matched category node whose parent has a parent,
severity resolution scans the grandparent's full descendant text
(space-separated, stripped) for the five severity tokens in the fixed
priority order Very High, High, Moderate, Low, Absent and returns the
first token found as a substring; every text containing "Very High"
(which then textually also contains "High") resolves to "Very High",
never to "High". -/
theorem find_level_priority_scan :
    (∀ (parent grandparent : Node) (rest : List Node),
        find_level_near_element (parent :: grandparent :: rest) =
          valid_levels.find? (fun level =>
            strContains (get_text_sep_strip grandparent) level))
    ∧ (∀ t : String, strContains t "Very High" = true →
        strContains t "High" = true ∧
        valid_levels.find? (fun level => strContains t level) = some "Very High")
    ∧ (∀ (parent grandparent : Node) (rest : List Node),
        strContains (get_text_sep_strip grandparent) "Very High" = true →
        find_level_near_element (parent :: grandparent :: rest) = some "Very High"
        ∧ find_level_near_element (parent :: grandparent :: rest) ≠ some "High") := by
  have main : ∀ t : String, strContains t "Very High" = true →
      strContains t "High" = true ∧
      valid_levels.find? (fun level => strContains t level) = some "Very High" := by
    intro t h
    have hdata : ("Very High").data = ("Very ").data ++ ("High").data := by decide
    have hhigh : strContains t "High" = true := by
      refine listContains_append_right ("Very ").data ("High").data t.data ?_
      rw [← hdata]
      exact h
    refine ⟨hhigh, ?_⟩
    rw [show valid_levels = "Very High" :: ["High", "Moderate", "Low", "Absent"]
      from rfl]
    exact List.find?_cons_of_pos _ h
  refine ⟨fun parent grandparent rest => rfl, main, ?_⟩
  intro parent grandparent rest h
  have heq : find_level_near_element (parent :: grandparent :: rest) =
      some "Very High" := by
    rw [show find_level_near_element (parent :: grandparent :: rest) =
      valid_levels.find? (fun level =>
        strContains (get_text_sep_strip grandparent) level) from rfl]
    exact (main _ h).2
  refine ⟨heq, ?_⟩
  intro hcontra
  rw [heq] at hcontra
  exact absurd (Option.some_inj.1 hcontra) (by decide)

/-- Witness for C1 at a concrete grandparent containing "Very High". -/
theorem find_level_priority_scan_witness :
    find_level_near_element [parent0, gp_very_high] = some "Very High"
    ∧ find_level_near_element [parent0, gp_very_high] ≠ some "High" :=
  find_level_priority_scan.2.2 parent0 gp_very_high [] (by decide)

/-- C6: date extraction returns the leftmost substring matching the
two-digits/slash/two-digits/slash/four-digits pattern, verbatim and
without calendar validation (13/40/9999 is accepted); with no match it
returns the current system date already formatted MM/DD/YYYY; it is a
total function and never fails. -/
theorem extract_date_first_match :
    (∀ (soup : Node) (now d : String),
        search_date (get_text soup).data = some d →
        extract_date soup now = d ∧ is_date_pattern d = true ∧
        ∃ i, match_date_at ((get_text soup).data.drop i) = some d ∧
          d.data.isPrefixOf ((get_text soup).data.drop i) = true ∧
          ∀ j < i, match_date_at ((get_text soup).data.drop j) = none)
    ∧ (∀ (soup : Node) (now : String),
        search_date (get_text soup).data = none → extract_date soup now = now)
    ∧ extract_date date_doc "01/01/2000" = "13/40/9999" := by
  refine ⟨?_, ?_, by decide⟩
  · intro soup now d h
    obtain ⟨i, h1, h2⟩ := search_date_first _ d h
    obtain ⟨hshape, hpre⟩ := match_date_at_shape _ d h1
    refine ⟨?_, hshape, i, h1, hpre, h2⟩
    simp only [extract_date, h]
  · intro soup now h
    simp only [extract_date, h]

/-- Witness for C6 on the calendar-invalid concrete document. -/
theorem extract_date_first_match_witness :
    extract_date date_doc "01/01/2000" = "13/40/9999"
    ∧ is_date_pattern "13/40/9999" = true :=
  ⟨(extract_date_first_match.1 date_doc "01/01/2000" "13/40/9999" (by rfl)).1,
   (extract_date_first_match.1 date_doc "01/01/2000" "13/40/9999" (by rfl)).2.1⟩

/-- The report the core produces for sample_doc with a fixed clock. -/
def sample_report : DailyPollenReport :=
  ⟨"02/15/2026", extract_readings sample_doc "02/15/2026", "2026-02-15 08:00:00"⟩

/-- A one-reading report, for the subject-line witness. -/
def high_report : DailyPollenReport :=
  ⟨"02/15/2026", [mkReading "High"], "2026-02-15 08:00:00"⟩

/-- C2: after a successful fetch, assembly signals the
unparseable-structure error exactly when zero readings were resolved;
with at least one resolved reading it returns a report holding exactly
those readings (with the extracted date and the timestamp) and does not
raise. -/
theorem scrape_error_iff_no_readings :
    ∀ (soup : Node) (nd ts : String),
      ((∃ msg, scrape_pollen_data soup nd ts = Except.error msg) ↔
          extract_readings soup (extract_date soup nd) = [])
      ∧ ∀ rep, scrape_pollen_data soup nd ts = Except.ok rep →
          rep.readings = extract_readings soup (extract_date soup nd)
          ∧ rep.readings ≠ [] ∧ rep.date = extract_date soup nd
          ∧ rep.scrape_time = ts := by
  intro soup nd ts
  by_cases h : extract_readings soup (extract_date soup nd) = []
  · have hval : scrape_pollen_data soup nd ts = Except.error
        "No pollen readings found on the page. The site structure may have changed." := by
      simp only [scrape_pollen_data]
      rw [if_pos h]
    refine ⟨⟨fun _ => h, fun _ => ⟨_, hval⟩⟩, ?_⟩
    intro rep hrep
    rw [hval] at hrep
    exact absurd hrep (by simp)
  · have hval : scrape_pollen_data soup nd ts = Except.ok
        ⟨extract_date soup nd, extract_readings soup (extract_date soup nd), ts⟩ := by
      simp only [scrape_pollen_data]
      rw [if_neg h]
    constructor
    · constructor
      · rintro ⟨msg, hmsg⟩
        rw [hval] at hmsg
        exact absurd hmsg (by simp)
      · intro h'
        exact absurd h' h
    · intro rep hrep
      rw [hval] at hrep
      obtain rfl : (⟨extract_date soup nd,
          extract_readings soup (extract_date soup nd), ts⟩ :
          DailyPollenReport) = rep := by
        injection hrep
      exact ⟨rfl, h, rfl, rfl⟩

/-- Witness for C2 on the sample document. -/
theorem scrape_error_iff_no_readings_witness :
    sample_report.readings =
      extract_readings sample_doc (extract_date sample_doc "01/01/2000")
    ∧ sample_report.readings ≠ []
    ∧ sample_report.date = extract_date sample_doc "01/01/2000"
    ∧ sample_report.scrape_time = "2026-02-15 08:00:00" :=
  (scrape_error_iff_no_readings sample_doc "01/01/2000" "2026-02-15 08:00:00").2
    sample_report (by rfl)

/-- C9: the core (date extraction, reading extraction and report
construction) is a pure function of the document and the fixed clock
strings: any two successful runs over the same inputs agree on the report
date, the readings (categories, severities, order) and the timestamp. -/
theorem scrape_deterministic :
    ∀ (soup : Node) (nd ts : String) (r1 r2 : DailyPollenReport),
      scrape_pollen_data soup nd ts = Except.ok r1 →
      scrape_pollen_data soup nd ts = Except.ok r2 →
      r1.date = r2.date ∧ r1.readings = r2.readings ∧
        r1.scrape_time = r2.scrape_time := by
  intro soup nd ts r1 r2 h1 h2
  rw [h1] at h2
  obtain rfl : r1 = r2 := by injection h2
  exact ⟨rfl, rfl, rfl⟩

/-- Witness for C9 on the sample document. -/
theorem scrape_deterministic_witness :
    sample_report.date = sample_report.date
    ∧ sample_report.readings = sample_report.readings
    ∧ sample_report.scrape_time = sample_report.scrape_time :=
  scrape_deterministic sample_doc "01/01/2000" "2026-02-15 08:00:00"
    sample_report sample_report (by rfl) (by rfl)

/-- C8: the subject line is exactly the icon of the worst severity
(empty when the severity is unmapped), a space, "Chicago Allergy Alert ("
then the report date then "): " then the worst severity; on a non-empty
readings list it is always produced. -/
theorem build_email_subject_format :
    (∀ (report : DailyPollenReport) (worst : String),
        worst_level report.readings = some worst →
        build_email_subject report = some (icon_for worst ++
          " Chicago Allergy Alert (" ++ report.date ++ "): " ++ worst))
    ∧ (∀ report : DailyPollenReport, report.readings ≠ [] →
        (build_email_subject report).isSome = true)
    ∧ (∀ w : String,
        SEVERITY_COLORS.find? (fun p => p.fst == w) = none → icon_for w = "") := by
  refine ⟨?_, ?_, ?_⟩
  · intro report worst h
    simp only [build_email_subject, h, Option.map_some']
  · intro report h
    cases hw : worst_level report.readings with
    | none =>
        have := worst_level_isSome report.readings h
        rw [hw] at this
        exact absurd this (by simp)
    | some w =>
        simp only [build_email_subject, hw, Option.map_some', Option.isSome_some]
  · intro w h
    simp only [icon_for, h]

/-- Witness for C8 on a one-reading report. -/
theorem build_email_subject_format_witness :
    build_email_subject high_report = some (icon_for "High" ++
      " Chicago Allergy Alert (" ++ high_report.date ++ "): " ++ "High") :=
  build_email_subject_format.1 high_report "High" (by decide)

/-- C3: category matching first tries case-insensitive full-string
equality against all five expected labels in list order (first exact hit
wins); only when no exact match exists anywhere does it try
case-insensitive substring containment of the expected label inside the
node text, again first hit in list order; a node matching neither way
leaves the loop state unchanged and produces no reading. -/
theorem match_category_two_pass :
    (∀ t e : String,
        EXPECTED_CATEGORIES.find? (fun expected =>
          pyLower expected == pyLower t) = some e → match_category t = some e)
    ∧ (∀ t : String,
        EXPECTED_CATEGORIES.find? (fun expected =>
          pyLower expected == pyLower t) = none →
        match_category t = EXPECTED_CATEGORIES.find? (fun expected =>
          strContains (pyLower t) (pyLower expected)))
    ∧ (∀ t e : String, e ∈ EXPECTED_CATEGORIES → pyLower e = pyLower t →
        match_category t = some e)
    ∧ (∀ (date : String) (seen : List String) (h4 : Node) (anc : List Node)
        (rest : List (Node × List Node)),
        match_category (get_text_strip h4) = none →
        extract_loop date seen ((h4, anc) :: rest) =
          extract_loop date seen rest) := by
  have pass1 : ∀ t e : String,
      EXPECTED_CATEGORIES.find? (fun expected =>
        pyLower expected == pyLower t) = some e → match_category t = some e := by
    intro t e h
    simp only [match_category, h]
  refine ⟨pass1, ?_, ?_, ?_⟩
  · intro t h
    simp only [match_category, h]
  · intro t e he hl
    refine pass1 t e ?_
    rw [← hl]
    fin_cases he <;> decide
  · intro date seen h4 anc rest h
    rw [extract_loop]
    simp only [h]

/-- Witness for C3: an upper-cased node text exact-matches its label. -/
theorem match_category_two_pass_witness :
    match_category "TREE POLLEN" = some "Tree Pollen" :=
  match_category_two_pass.2.2.1 "TREE POLLEN" "Tree Pollen" (by decide) (by decide)

/-- C5: worst_level ranks severities Absent 0, Low 1, Moderate 2, High 3,
Very High 4, anything else -1, scans left to right and returns the level
of the first reading attaining the maximum rank (stable argmax); an
unrecognized severity never wins unless every reading is unrecognized;
the function does not fail on non-empty input; and the three concrete
reductions of the spec hold. -/
theorem worst_level_stable_argmax :
    (∀ l : List PollenReading, l ≠ [] →
        worst_level l = worst_level_spec l ∧ (worst_level l).isSome = true)
    ∧ (∀ (l : List PollenReading) (s : String),
        worst_level l = some s → severity_rank s = -1 →
        ∀ r ∈ l, severity_rank r.level = -1)
    ∧ (severity_rank "Absent" = 0 ∧ severity_rank "Low" = 1 ∧
        severity_rank "Moderate" = 2 ∧ severity_rank "High" = 3 ∧
        severity_rank "Very High" = 4)
    ∧ (∀ s : String, s ∉ ["Absent", "Low", "Moderate", "High", "Very High"] →
        severity_rank s = -1)
    ∧ worst_level [mkReading "High", mkReading "Low", mkReading "Moderate"] =
        some "High"
    ∧ worst_level [mkReading "Very High", mkReading "High"] = some "Very High"
    ∧ worst_level [mkReading "Absent", mkReading "Absent"] = some "Absent" := by
  refine ⟨?_, ?_, by decide, ?_, by decide, by decide, by decide⟩
  · intro l h
    exact ⟨worst_level_eq_spec l h, worst_level_isSome l h⟩
  · intro l s hw hrank r hr
    match l, hw, hr with
    | x :: xs, hw, hr =>
      obtain ⟨l1, l2, heq, hstrict, hle⟩ :=
        pymax_decomp (fun r => severity_rank r.level) xs x
      rw [worst_level] at hw
      have hs : (pymax (fun r => severity_rank r.level) x xs).level = s :=
        Option.some_inj.1 hw
      have h1 := hle r hr
      rw [hs] at h1
      have h2 := severity_rank_ge r.level
      omega
  · intro s hs
    simp only [List.mem_cons, not_or] at hs
    obtain ⟨n1, n2, n3, n4, n5, -⟩ := hs
    rw [severity_rank, if_neg n1, if_neg n2, if_neg n3, if_neg n4, if_neg n5]

/-- Witness for C5 on a one-reading list. -/
theorem worst_level_stable_argmax_witness :
    worst_level [mkReading "High"] = worst_level_spec [mkReading "High"]
    ∧ (worst_level [mkReading "High"]).isSome = true :=
  worst_level_stable_argmax.1 [mkReading "High"] (by decide)

/-- C4: the extracted readings carry pairwise-distinct categories (at
most one reading per category), and they equal the order-preserving
match / dedup-first / resolve pipeline over the h4 nodes in document
order — so each category is claimed by its first matching node, later
duplicates are ignored, and the readings appear in discovery order. -/
theorem extract_readings_one_per_category :
    ∀ (soup : Node) (date : String),
      ((extract_readings soup date).map PollenReading.category).Nodup
      ∧ extract_readings soup date =
          resolve_levels date (dedup_first [] (matched_pairs (find_all_h4 soup))) := by
  intro soup date
  have hpipe := extract_loop_eq_pipeline (find_all_h4 soup) date []
  constructor
  · rw [extract_readings, hpipe]
    have hsub := resolve_levels_sublist
      (dedup_first [] (matched_pairs (find_all_h4 soup))) date
    have hnd := (dedup_first_keys (matched_pairs (find_all_h4 soup)) []).1
    exact hnd.sublist hsub
  · rw [extract_readings, hpipe]

/-- C10: a category is claimed by its first matching node in document
order before severity resolution is attempted: when the first matched
pair for a category fails to resolve a severity, the output contains no
reading for that category at all, even when later duplicate nodes for the
same category would resolve one. -/
theorem first_claim_blocks_category :
    ∀ (soup : Node) (date cat : String),
      ((matched_pairs (find_all_h4 soup)).find? (fun q => q.fst == cat)).map
          (fun p => find_level_near_element p.snd) = some none →
      (extract_readings soup date).all (fun r => r.category != cat) = true := by
  intro soup date cat h
  refine List.all_eq_true.mpr ?_
  intro r hr
  simp only [bne_iff_ne, ne_eq]
  intro hrc
  rw [extract_readings, extract_loop_eq_pipeline] at hr
  obtain ⟨a, hmem, hlv⟩ := mem_resolve_levels _ date r hr
  obtain ⟨-, hfind⟩ := mem_dedup_first _ [] r.category a hmem
  rw [hrc] at hfind
  rw [hfind] at h
  simp only [Option.map_some'] at h
  have hnone : find_level_near_element a = none := Option.some_inj.1 h
  rw [hnone] at hlv
  exact Option.noConfusion hlv

/-- Witness for C10 on the failing-then-succeeding duplicate document. -/
theorem first_claim_blocks_category_witness :
    (extract_readings dup_fail_doc "02/15/2026").all
      (fun r => r.category != "Mold") = true :=
  first_claim_blocks_category dup_fail_doc "02/15/2026" "Mold" (by decide)

/-- A concrete h4 node labelled Mold. -/
def h4_mold : Node := Node.elem "h4" [Node.text "Mold"]

/-- A one-entry ancestor chain: the parent exists but has no parent. -/
def anc_short : List Node := [Node.elem "div" [Node.elem "h4" [Node.text "Mold"]]]

/-- C7: a matched category node with no grandparent, or whose grandparent
text contains none of the five severity tokens, resolves no severity; the
loop then proceeds with the category only marked as seen, so the category
is silently excluded from the output, nothing is raised (the loop is a
total function), and the readings for all other categories are exactly
the ones obtained without that node. -/
theorem failed_resolution_soft :
    (∀ anc : List Node, anc.length ≤ 1 → find_level_near_element anc = none)
    ∧ (∀ (parent grandparent : Node) (rest : List Node),
        (∀ lvl ∈ valid_levels,
          strContains (get_text_sep_strip grandparent) lvl = false) →
        find_level_near_element (parent :: grandparent :: rest) = none)
    ∧ (∀ (date : String) (seen : List String) (h4 : Node) (anc : List Node)
        (rest : List (Node × List Node)) (cat : String),
        match_category (get_text_strip h4) = some cat → cat ∉ seen →
        find_level_near_element anc = none →
        extract_loop date seen ((h4, anc) :: rest) =
            extract_loop date (cat :: seen) rest
        ∧ (extract_loop date seen ((h4, anc) :: rest)).all
            (fun r => r.category != cat) = true
        ∧ (extract_loop date seen ((h4, anc) :: rest)).filter
              (fun r => r.category != cat) =
            (extract_loop date seen rest).filter
              (fun r => r.category != cat)) := by
  refine ⟨?_, ?_, ?_⟩
  · intro anc h
    match anc, h with
    | [], _ => rfl
    | [p], _ => rfl
    | p :: g :: r, h =>
        exfalso
        simp only [List.length_cons] at h
        omega
  · intro parent grandparent rest hnone
    rw [show find_level_near_element (parent :: grandparent :: rest) =
      valid_levels.find? (fun level =>
        strContains (get_text_sep_strip grandparent) level) from rfl]
    refine List.find?_eq_none.mpr ?_
    intro lvl hlvl
    rw [hnone lvl hlvl]
    exact Bool.false_ne_true
  · intro date seen h4 anc rest cat hm hs hl
    have hstep : extract_loop date seen ((h4, anc) :: rest) =
        extract_loop date (cat :: seen) rest := by
      rw [extract_loop]
      simp only [hm, if_neg hs, hl]
    refine ⟨hstep, ?_, ?_⟩
    · rw [hstep]
      refine List.all_eq_true.mpr ?_
      intro r hr
      have hni := extract_loop_category_notin_seen rest date (cat :: seen) r hr
      have hne : r.category ≠ cat :=
        fun hrc => hni (hrc ▸ List.mem_cons_self cat seen)
      simpa [bne_iff_ne] using hne
    · rw [hstep]
      refine extract_loop_filter_congr rest date cat (cat :: seen) seen ?_
      intro x hx
      simp [List.mem_cons, hx]

/-- Witness for C7: a Mold node whose parent has no parent, followed by
the five well-formed sample blocks. -/
theorem failed_resolution_soft_witness :
    extract_loop "02/15/2026" [] ((h4_mold, anc_short) :: find_all_h4 sample_doc) =
        extract_loop "02/15/2026" ["Mold"] (find_all_h4 sample_doc)
    ∧ (extract_loop "02/15/2026" [] ((h4_mold, anc_short) :: find_all_h4 sample_doc)).all
        (fun r => r.category != "Mold") = true
    ∧ (extract_loop "02/15/2026" [] ((h4_mold, anc_short) :: find_all_h4 sample_doc)).filter
          (fun r => r.category != "Mold") =
        (extract_loop "02/15/2026" [] (find_all_h4 sample_doc)).filter
          (fun r => r.category != "Mold") :=
  failed_resolution_soft.2.2 "02/15/2026" [] h4_mold anc_short
    (find_all_h4 sample_doc) "Mold" (by decide) (by decide) (by rfl)

end AllergyMonitor
